import Mathlib

/-!
Verification of the core of `Pride_Of_Code_`: the entity registry / action
queue / timeline builder (`src/cop/band.py`) and the script sandbox
(`src/cop/code_runner.py`), shallowly embedded in Lean 4.

Python `dict`s (which preserve insertion order) are embedded as association
lists with in-place update and append-on-new-key semantics.  Python `float`
interpolation `start + (end - start) * (t+1) / counts` is embedded over `ℚ`
(exact for the magnitudes this program manipulates) with Python's
round-half-to-even `round`.
-/

namespace Cop

/-- An entity of the registry: `Entity` dataclass of `src/cop/band.py`. -/
structure Entity where
  name : String
  sect : String
  x : Int
  y : Int
deriving DecidableEq, Repr

/-- A queued action: `StepAction` dataclass of `src/cop/band.py`.
`endp` embeds the Python field `end` (a Lean keyword); `t` is the
`progressed counts` field (never consulted by the sim loops). -/
structure StepAction where
  entity : String
  start : Int × Int
  endp : Int × Int
  counts : Nat
  t : Nat := 0
deriving DecidableEq, Repr

/-- Ordered-dictionary lookup: first (and, for a Python `dict`, only)
binding of `k`. -/
def dictGet (d : List (String × Entity)) (k : String) : Option Entity :=
  (d.find? (fun p => p.1 == k)).map (fun p => p.2)

/-- Ordered-dictionary store `d[k] = v`: update in place when the key is
present (keeping its position, as a Python `dict` does), append otherwise. -/
def dictInsert (d : List (String × Entity)) (k : String) (v : Entity) :
    List (String × Entity) :=
  if d.any (fun p => p.1 == k) then
    d.map (fun p => if p.1 == k then (k, v) else p)
  else
    d ++ [(k, v)]

/-- A snapshot: mapping from entity name to `(x, y)`, in registry order. -/
abbrev Snapshot := List (String × (Int × Int))

/-- Snapshot lookup, same semantics as `dictGet`. -/
def snapGet (s : Snapshot) (k : String) : Option (Int × Int) :=
  (List.find? (fun p => p.1 == k) s).map (fun p => p.2)

/-- Snapshot store, same semantics as `dictInsert`. -/
def snapInsert (s : Snapshot) (k : String) (v : Int × Int) : Snapshot :=
  if List.any s (fun p => p.1 == k) then
    List.map (fun p => if p.1 == k then (k, v) else p) s
  else
    s ++ [(k, v)]

/-- The registry + queue: class `Band` of `src/cop/band.py` (`self.math`
is a module alias with no bearing on state). -/
structure Band where
  entities : List (String × Entity)
  queue : List StepAction
  time : Nat
deriving DecidableEq, Repr

/-- `Band()` constructor. -/
def Band.init : Band := { entities := [], queue := [], time := 0 }

/-- `Band.spawn`: insert or overwrite. -/
def Band.spawn (b : Band) (name sect : String) (x y : Int) : Band :=
  { b with entities := dictInsert b.entities name ⟨name, sect, x, y⟩ }

/-- `Band.set_pos`: auto-spawn with section "GEN" at `(x, y)` when the name
is unknown, else overwrite the coordinates in place. -/
def Band.set_pos (b : Band) (name : String) (x y : Int) : Band :=
  match dictGet b.entities name with
  | none => b.spawn name "GEN" x y
  | some e => { b with entities := dictInsert b.entities name { e with x := x, y := y } }

/-- `Band.get_pos`: a pure read.  `self.entities[name]` raises `KeyError` on
a missing key, embedded as `none`; on success the untouched band is returned
alongside the coordinates (the method performs no assignment). -/
def Band.get_pos (b : Band) (name : String) : Option ((Int × Int) × Band) :=
  (dictGet b.entities name).map (fun e => ((e.x, e.y), b))

/-- `Band.get_all`: the known names, insertion order. -/
def Band.get_all (b : Band) : List String :=
  b.entities.map (fun p => p.1)

/-- `Band.is_occupied`. -/
def Band.is_occupied (b : Band) (x y : Int) : Bool :=
  b.entities.any (fun p => p.2.x == x && p.2.y == y)

/-- `Band.step_to` on a list of names (`isinstance(who, str)` wraps a single
name into a one-element list first).  `counts = max(1, int(counts))`; an
unknown name is spawned at the origin with section "GEN", so its captured
`start` is `(0, 0)`. -/
def Band.step_to (b : Band) (who : List String) (x y : Int) (counts : Int := 8) :
    Band :=
  let cnt : Nat := (max 1 counts).toNat
  who.foldl (fun b n =>
    match dictGet b.entities n with
    | none =>
        let b := b.spawn n "GEN" 0 0
        { b with queue := b.queue ++ [⟨n, (0, 0), (x, y), cnt, 0⟩] }
    | some e =>
        { b with queue := b.queue ++ [⟨n, (e.x, e.y), (x, y), cnt, 0⟩] }) b

/-- `Band.step_to` on a single name. -/
def Band.step_to1 (b : Band) (who : String) (x y : Int) (counts : Int := 8) :
    Band :=
  b.step_to [who] x y counts

/-- `Band.wait`: the WAIT sentinel action. -/
def Band.wait (b : Band) (counts : Int := 8) : Band :=
  { b with queue := b.queue ++ [⟨"__WAIT__", (0, 0), (0, 0), (max 1 counts).toNat, 0⟩] }

/-- `Band.reset_actions`. -/
def Band.reset_actions (b : Band) : Band :=
  { b with queue := [], time := 0 }

/-- `Band.snapshot`. -/
def Band.snapshot (b : Band) : Snapshot :=
  b.entities.map (fun p => (p.1, (p.2.x, p.2.y)))

/-- One iteration of the `Band.apply_snapshot` loop: update the coordinates
of an existing entity in place, spawn (section "GEN") a name absent from the
registry. -/
def applySnapOne (b : Band) (p : String × (Int × Int)) : Band :=
  match dictGet b.entities p.1 with
  | some e => { b with entities := dictInsert b.entities p.1 { e with x := p.2.1, y := p.2.2 } }
  | none => b.spawn p.1 "GEN" p.2.1 p.2.2

/-- `Band.apply_snapshot`: update coordinates of existing entities, spawn
(section "GEN") names present in the snapshot but absent from the registry. -/
def Band.apply_snapshot (b : Band) (snap : Snapshot) : Band :=
  snap.foldl applySnapOne b

/-- Python's `round`: round-half-to-even on an exact rational. -/
def pyRound (q : ℚ) : Int :=
  let f : Int := ⌊q⌋
  let frac : ℚ := q - f
  if frac < 1/2 then f
  else if 1/2 < frac then f + 1
  else if f % 2 = 0 then f else f + 1

/-- The interpolated (rounded) position of `act` after its tick `t`
(0-based): `int(round(s + (e - s) * (t+1) / counts))` on each axis. -/
def interpPos (act : StepAction) (t : Nat) : Int × Int :=
  (pyRound ((act.start.1 : ℚ) + ((act.endp.1 - act.start.1 : Int) : ℚ) * ((t : ℚ) + 1) / (act.counts : ℚ)),
   pyRound ((act.start.2 : ℚ) + ((act.endp.2 - act.start.2 : Int) : ℚ) * ((t : ℚ) + 1) / (act.counts : ℚ)))

/-- The inner tick loop of `Band.make_timeline` for one action: `rem` ticks
remain, the next one has 0-based index `t`, `tg` is `t_global`, `pos` the
working position map.  Returns (`t_global`, `pos`, snapshots appended).
A tick whose incremented `t_global` exceeds `maxCounts` breaks out before
moving anything or appending (silent truncation). -/
def tickLoop (act : StepAction) (maxCounts : Nat) :
    Nat → Nat → Nat → Snapshot → Nat × Snapshot × List Snapshot
  | 0, _, tg, pos => (tg, pos, [])
  | rem + 1, t, tg, pos =>
    let tg' := tg + 1
    if tg' > maxCounts then (tg', pos, [])
    else
      let pos' := if act.entity ≠ "__WAIT__" then snapInsert pos act.entity (interpPos act t) else pos
      let r := tickLoop act maxCounts rem (t + 1) tg' pos'
      (r.1, r.2.1, pos' :: r.2.2)

/-- The action loop of `Band.make_timeline`: after one action's ticks, stop
when `t_global` exceeded the budget, else continue with the next action.
Returns (snapshots appended after index 0, final `t_global`, final `pos`). -/
def timelineLoop (maxCounts : Nat) :
    List StepAction → Nat → Snapshot → List Snapshot × Nat × Snapshot
  | [], tg, pos => ([], tg, pos)
  | act :: rest, tg, pos =>
    let r := tickLoop act maxCounts act.counts 0 tg pos
    if r.1 > maxCounts then (r.2.2, r.1, r.2.1)
    else
      let s := timelineLoop maxCounts rest r.1 r.2.1
      (r.2.2 ++ s.1, s.2.1, s.2.2)

/-- `Band.make_timeline`: builds the timeline against a copy of the current
positions, then restores the registry via `apply_snapshot(initial)`.  The
second component is the band as the method leaves it. -/
def Band.make_timeline (b : Band) (maxCounts : Nat := 128) :
    List Snapshot × Band :=
  let initial := b.snapshot
  let r := timelineLoop maxCounts b.queue 0 initial
  (initial :: r.1, b.apply_snapshot initial)

/-- The inner tick loop of `Band.simulate` for one action: mutates the
registry in place; the flag is `true` when `self.time` exceeded the budget
(the Python `return`). A missing entity is skipped (`continue`), as is the
WAIT sentinel. -/
def simTicks (act : StepAction) (maxCounts : Nat) :
    Nat → Nat → Band → Band × Bool
  | 0, _, b => (b, false)
  | rem + 1, t, b =>
    let b := { b with time := b.time + 1 }
    if b.time > maxCounts then (b, true)
    else if act.entity = "__WAIT__" then simTicks act maxCounts rem (t + 1) b
    else
      match dictGet b.entities act.entity with
      | none => simTicks act maxCounts rem (t + 1) b
      | some e =>
          let p := interpPos act t
          simTicks act maxCounts rem (t + 1)
            { b with entities := dictInsert b.entities act.entity { e with x := p.1, y := p.2 } }

/-- The action loop of `Band.simulate`. -/
def simLoop (maxCounts : Nat) : List StepAction → Band → Band
  | [], b => b
  | act :: rest, b =>
    let r := simTicks act maxCounts act.counts 0 b
    if r.2 then r.1 else simLoop maxCounts rest r.1

/-- `Band.simulate`: runs the queued actions in place, after `self.time = 0`. -/
def Band.simulate (b : Band) (maxCounts : Nat := 64) : Band :=
  simLoop maxCounts b.queue { b with time := 0 }

/-- Total counts of the queued actions: `Σ act.counts`. -/
def sumCounts (q : List StepAction) : Nat :=
  (q.map (fun a => a.counts)).sum

/-! ## The script sandbox (`src/cop/code_runner.py`) -/

/-- `RunResult` dataclass of `src/cop/code_runner.py`. -/
structure RunResult where
  ok : Bool
  error : Option String := none
  lines_executed : Nat := 0
  used_hint : Bool := false
  error_line : Option Nat := none
deriving DecidableEq, Repr

/-- One entry of `traceback.extract_tb`: originating filename and 1-based
line number.  Code run through `exec(code, ...)` has filename `"<string>"`. -/
structure Frame where
  filename : String
  lineno : Nat
deriving DecidableEq, Repr

/-- A raised exception at the sandbox boundary: its type name (`SyntaxError`,
`NameError`, `KeyError`, ...), its message, the parser line (populated
exactly for `SyntaxError`), and its traceback frames, outermost first. -/
structure PyError where
  name : String
  msg : String
  syntaxLineno : Option Nat := none
  frames : List Frame := []
deriving DecidableEq, Repr

/-- `_friendly_error`, keyed on `type(err).__name__` and `str(err)`. -/
def friendlyError (name msg : String) : String :=
  if name = "SyntaxError" then "SyntaxError: " ++ msg
  else if name = "NameError" then
    "NameError: " ++ msg ++ ". Tip: define the variable before using it."
  else if name = "TypeError" then
    "TypeError: " ++ msg ++ ". Tip: check function arguments and value types."
  else name ++ ": " ++ msg

/-- `_extract_error_line`: the parser line for a `SyntaxError`, otherwise the
innermost traceback frame whose filename is `"<string>"` (scan of
`reversed(frames)`), `none` when no such frame exists. -/
def extractErrorLine (e : PyError) : Option Nat :=
  if e.name = "SyntaxError" then e.syntaxLineno
  else ((e.frames.reverse).find? (fun f => f.filename == "<string>")).map (fun f => f.lineno)

/-- How one `exec` of a script body would end, absent the step budget:
- `parseFails msg lineno`: `compile` raises `SyntaxError` before any line
  runs (zero line events);
- `normal n`: the script completes, its run firing `n` line-trace events;
- `raises n e`: the script (or a binding it calls) raises `e`, its run
  having fired `n` line-trace events up to and including the faulting line. -/
inductive ExecOutcome where
  | parseFails (msg : String) (lineno : Option Nat)
  | normal (lineEvents : Nat)
  | raises (lineEvents : Nat) (e : PyError)
deriving DecidableEq, Repr

/-- The line events a non-parse-failing run would fire, `none` for a parse
failure. -/
def ExecOutcome.lineEvents : ExecOutcome → Option Nat
  | .parseFails _ _ => none
  | .normal n => some n
  | .raises n _ => some n

/-- The message of `StepLimit("Your rehearsal ran too long ...")`. -/
def stepLimitMsg : String := "Your rehearsal ran too long (possible infinite loop)."

/-- The `except StepLimit` branch: the tracer increments `counter["lines"]`
on every line event and raises once the counter passes `line_limit`, so the
trip happens on event `line_limit + 1`. -/
def stepLimitResult (line_limit : Nat) : RunResult :=
  { ok := false, error := some stepLimitMsg, lines_executed := line_limit + 1 }

/-- `run_player_code`: the tracer trips iff the run's line events would pass
`line_limit`; otherwise a parse failure or a raised exception is caught by
`except Exception` and classified via `_friendly_error` /
`_extract_error_line`, and a completed run reports `ok=True`. -/
def run_player_code (o : ExecOutcome) (line_limit : Nat := 8000) : RunResult :=
  match o with
  | .parseFails msg lineno =>
      { ok := false,
        error := some (friendlyError "SyntaxError" msg),
        lines_executed := 0,
        error_line := lineno }
  | .normal n =>
      if n > line_limit then stepLimitResult line_limit
      else { ok := true, lines_executed := n }
  | .raises n e =>
      if n > line_limit then stepLimitResult line_limit
      else
        { ok := false,
          error := some (friendlyError e.name e.msg),
          lines_executed := n,
          error_line := extractErrorLine e }

/-- A registry/queue API call a script can make through its `bindings`
(the mutating surface of `Band` exposed to player code). -/
inductive BandOp where
  | spawn (name sect : String) (x y : Int)
  | set_pos (name : String) (x y : Int)
  | step_to (who : List String) (x y : Int) (counts : Int)
  | wait (counts : Int)
deriving DecidableEq, Repr

/-- Effect of one `BandOp` on the band. -/
def applyOp (b : Band) : BandOp → Band
  | .spawn n s x y => b.spawn n s x y
  | .set_pos n x y => b.set_pos n x y
  | .step_to who x y c => b.step_to who x y c
  | .wait c => b.wait c

/-- `run_player_code` with its registry side effects: calls against
`bindings` execute for real, so the band the caller sees afterwards is the
initial band with every API call the script performed before its outcome
applied; no branch of `run_player_code` rolls any of them back. -/
def run_player_code_fx (b : Band) (ops : List BandOp) (o : ExecOutcome)
    (line_limit : Nat := 8000) : RunResult × Band :=
  (run_player_code o line_limit, ops.foldl applyOp b)

/-- The closed error-kind enumeration of the specification. -/
def closedErrorKinds : List String :=
  ["ParseError", "NameError", "TypeError", "StepLimitExceeded", "OtherRuntimeError"]

/-- The exception-type-name prefix of a result's message: `_friendly_error`
always formats `"{name}: {msg}"`-style strings, so the text before the first
`":"` is the classification the caller can observe. -/
def errorKindOf (r : RunResult) : Option String :=
  r.error.map (fun s => String.mk (s.data.takeWhile (fun c => c ≠ ':')))

/-- The snapshots one action appends when the budget is never hit: each
tick moves the entity to its interpolated position and records the map. -/
def tickSnaps (act : StepAction) : Nat → Nat → Snapshot → List Snapshot
  | 0, _, _ => []
  | rem + 1, t, pos =>
    let pos' := if act.entity ≠ "__WAIT__" then snapInsert pos act.entity (interpPos act t) else pos
    pos' :: tickSnaps act rem (t + 1) pos'

/-- The observable position of an entity of the registry. -/
def bandPos (b : Band) (n : String) : Option (Int × Int) :=
  (dictGet b.entities n).map (fun e => (e.x, e.y))

/-! ## Timeline length (C1) -/

/-- Within one action, starting at a legal global tick `tg ≤ M`, the inner
loop appends exactly `min rem (M - tg)` snapshots and leaves the global
counter at `min (tg + rem) (M + 1)` (it stops right after the first tick
past the budget). -/
theorem tickLoop_count (act : StepAction) (M : Nat) :
    ∀ (rem t tg : Nat) (pos : Snapshot), tg ≤ M →
      (tickLoop act M rem t tg pos).1 = min (tg + rem) (M + 1) ∧
      (tickLoop act M rem t tg pos).2.2.length = min rem (M - tg) := by
  intro rem
  induction rem with
  | zero =>
      intro t tg pos h
      simp [tickLoop]
      omega
  | succ rem ih =>
      intro t tg pos h
      by_cases hover : tg + 1 > M
      · simp [tickLoop, hover]
        omega
      · have h' : tg + 1 ≤ M := by omega
        simp only [tickLoop, hover, if_false]
        set pos' := if act.entity = "__WAIT__" then pos
          else snapInsert pos act.entity (interpPos act t) with hpos
        have hthis := ih (t + 1) (tg + 1) pos' h'
        refine ⟨?_, ?_⟩
        · simp only [ite_not]
          rw [← hpos, hthis.1]
          omega
        · simp only [ite_not, List.length_cons]
          rw [← hpos, hthis.2]
          omega

/-- Across the whole queue, starting at a legal tick `tg ≤ M`, the action
loop appends exactly `min (Σ counts) (M - tg)` snapshots. -/
theorem timelineLoop_count (M : Nat) :
    ∀ (q : List StepAction) (tg : Nat) (pos : Snapshot), tg ≤ M →
      (timelineLoop M q tg pos).1.length = min (sumCounts q) (M - tg) := by
  intro q
  induction q with
  | nil =>
      intro tg pos h
      simp [timelineLoop, sumCounts]
  | cons act rest ih =>
      intro tg pos h
      have hk := tickLoop_count act M act.counts 0 tg pos h
      by_cases hc : tg + act.counts ≤ M
      · have h1 : (tickLoop act M act.counts 0 tg pos).1 = tg + act.counts := by
          rw [hk.1]; omega
        have hstop : ¬ (tickLoop act M act.counts 0 tg pos).1 > M := by
          rw [h1]; omega
        have ihr := ih (tickLoop act M act.counts 0 tg pos).1
          (tickLoop act M act.counts 0 tg pos).2.1 (by omega)
        simp only [timelineLoop, if_neg hstop, List.length_append]
        rw [hk.2, ihr, h1]
        simp only [sumCounts, List.map_cons, List.sum_cons]
        have : (List.map (fun a => a.counts) rest).sum = sumCounts rest := rfl
        rw [this]
        omega
      · have hstop : (tickLoop act M act.counts 0 tg pos).1 > M := by
          rw [hk.1]; omega
        simp only [timelineLoop, if_pos hstop]
        rw [hk.2]
        simp only [sumCounts, List.map_cons, List.sum_cons]
        omega

/-- C1: for every `Band` (hence every `ActionQueue`) and every tick budget
`M`, `make_timeline` returns a timeline of length exactly
`1 + min (Σ counts) M`: the initial snapshot plus one snapshot per tick up
to the budget, with silent truncation and no partial snapshot beyond it. -/
theorem make_timeline_length (b : Band) (M : Nat) :
    (b.make_timeline M).1.length = 1 + min (sumCounts b.queue) M := by
  have := timelineLoop_count M b.queue 0 b.snapshot (Nat.zero_le M)
  simp [Band.make_timeline, this]
  omega

/-! ## Purity of `make_timeline` (C2) -/

/-- A fold whose step fixes the accumulator on every list element leaves the
accumulator unchanged. -/
theorem foldl_fixed {α β : Type} (f : β → α → β) :
    ∀ (l : List α) (b : β), (∀ p ∈ l, f b p = b) → l.foldl f b = b := by
  intro l
  induction l with
  | nil => intro b _; rfl
  | cons a l ih =>
      intro b h
      have ha : f b a = b := h a (List.mem_cons_self a l)
      simp only [List.foldl_cons, ha]
      exact ih b (fun p hp => h p (List.mem_cons_of_mem a hp))

/-- With no duplicate keys, lookup finds exactly the stored binding. -/
theorem dictGet_of_mem :
    ∀ (d : List (String × Entity)), (d.map Prod.fst).Nodup →
      ∀ (k : String) (e : Entity), (k, e) ∈ d → dictGet d k = some e := by
  intro d
  induction d with
  | nil => intro _ k e h; cases h
  | cons p d ih =>
      intro hd k e h
      rw [List.map_cons, List.nodup_cons] at hd
      rcases List.mem_cons.mp h with heq | hmem
      · cases heq
        simp [dictGet]
      · have hk : (p.1 == k) = false := by
          rw [beq_eq_false_iff_ne]
          intro hkk
          exact hd.1 (hkk ▸ List.mem_map.mpr ⟨(k, e), hmem, rfl⟩)
        simp only [dictGet, List.find?_cons, hk, cond_false]
        exact ih hd.2 k e hmem

/-- With no duplicate keys, writing back a binding that is already present
is a no-op. -/
theorem dictInsert_mem_self :
    ∀ (d : List (String × Entity)), (d.map Prod.fst).Nodup →
      ∀ (k : String) (e : Entity), (k, e) ∈ d → dictInsert d k e = d := by
  have noop : ∀ (k : String) (e : Entity) (d : List (String × Entity)),
      (∀ q ∈ d, q.1 ≠ k) →
      d.map (fun p => if p.1 == k then (k, e) else p) = d := by
    intro k e d hq
    induction d with
    | nil => rfl
    | cons p d ih =>
        have hp : ¬ (p.1 == k) = true := by
          simp only [beq_iff_eq]; exact hq p (List.mem_cons_self p d)
        simp only [List.map_cons, if_neg hp]
        rw [ih (fun q hqd => hq q (List.mem_cons_of_mem p hqd))]
  intro d
  induction d with
  | nil => intro _ k e h; cases h
  | cons p d ih =>
      intro hd k e h
      rw [List.map_cons, List.nodup_cons] at hd
      have hany : ((p :: d).any (fun q => q.1 == k)) = true := by
        refine List.any_eq_true.mpr ⟨(k, e), h, by simp⟩
      rcases List.mem_cons.mp h with heq | hmem
      · cases heq
        simp only [dictInsert, if_pos hany, List.map_cons, ite_self]
        rw [noop k e d]
        intro q hqd hqk
        exact hd.1 (hqk ▸ List.mem_map.mpr ⟨q, hqd, rfl⟩)
      · have hp : ¬ (p.1 == k) = true := by
          simp only [beq_iff_eq]
          intro hkk
          exact hd.1 (hkk ▸ List.mem_map.mpr ⟨(k, e), hmem, rfl⟩)
        have hany' : (d.any (fun q => q.1 == k)) = true :=
          List.any_eq_true.mpr ⟨(k, e), hmem, by simp⟩
        have hrec := ih hd.2 k e hmem
        simp only [dictInsert, if_pos hany'] at hrec
        simp only [dictInsert, if_pos hany, List.map_cons, if_neg hp, hrec]

/-- Re-applying a band's own snapshot restores (in fact, never leaves) the
band: each loop iteration rewrites an entity's coordinates with their
current values. -/
theorem apply_snapshot_self (b : Band)
    (hb : (b.entities.map Prod.fst).Nodup) :
    b.apply_snapshot b.snapshot = b := by
  refine foldl_fixed applySnapOne b.snapshot b ?_
  intro p hp
  rcases List.mem_map.mp hp with ⟨q, hq, hqp⟩
  have hget : dictGet b.entities q.1 = some q.2 := by
    refine dictGet_of_mem b.entities hb q.1 q.2 ?_
    exact hq
  rw [← hqp]
  simp only [applySnapOne, hget]
  have : { q.2 with x := q.2.x, y := q.2.y } = q.2 := rfl
  rw [this, dictInsert_mem_self b.entities hb q.1 q.2 hq]

/-- C2: `make_timeline` is observationally pure with respect to the
registry: for a well-formed registry (a Python `dict` has no duplicate
keys), the band after the call equals the band before it — so every
entity's name, section and coordinates are unchanged — and a second call
with no mutation in between returns the identical timeline. -/
theorem make_timeline_pure (b : Band) (M : Nat)
    (hb : (b.entities.map Prod.fst).Nodup) :
    (b.make_timeline M).2 = b ∧
    ((b.make_timeline M).2.make_timeline M).1 = (b.make_timeline M).1 := by
  have hres : (b.make_timeline M).2 = b := by
    simp only [Band.make_timeline]
    exact apply_snapshot_self b hb
  exact ⟨hres, by rw [hres]⟩

/-- Witness for C2 at a concrete band: one entity "A" with a queued move. -/
theorem make_timeline_pure_witness :
    (((Band.init.spawn "A" "DM" 0 0).step_to1 "A" 4 0 4).entities.map Prod.fst).Nodup ∧
    ((((Band.init.spawn "A" "DM" 0 0).step_to1 "A" 4 0 4).make_timeline 128).2 =
      (Band.init.spawn "A" "DM" 0 0).step_to1 "A" 4 0 4 ∧
     (((((Band.init.spawn "A" "DM" 0 0).step_to1 "A" 4 0 4).make_timeline 128).2).make_timeline 128).1 =
      (((Band.init.spawn "A" "DM" 0 0).step_to1 "A" 4 0 4).make_timeline 128).1) :=
  ⟨by decide, make_timeline_pure ((Band.init.spawn "A" "DM" 0 0).step_to1 "A" 4 0 4) 128 (by decide)⟩

/-! ## Sandbox totality and failure shape (C3) -/

/-- C3: `run_player_code` answers every possible run with a well-formed
`RunResult`: a failing result always carries a message, and `ok = true`
holds exactly for a run that completes normally within the step budget —
so parse failures, raised faults and budget trips all come back with
`ok = false` instead of propagating. -/
theorem run_player_code_never_raises (o : ExecOutcome) (l : Nat) :
    ((run_player_code o l).ok = false → ((run_player_code o l).error).isSome = true) ∧
    ((run_player_code o l).ok = true ↔ ∃ n, o = ExecOutcome.normal n ∧ n ≤ l) := by
  cases o with
  | parseFails msg lineno => simp [run_player_code]
  | normal n =>
      by_cases h : n > l
      · simp [run_player_code, h, stepLimitResult]
      · simp [run_player_code, h]
        omega
  | raises n e =>
      by_cases h : n > l
      · simp [run_player_code, h, stepLimitResult]
      · simp [run_player_code, h]

/-- Witness for C3: a run that raises a `TypeError` after three line events
comes back `ok = false` with a message. -/
theorem run_player_code_never_raises_witness :
    ((run_player_code (ExecOutcome.raises 3 ⟨"TypeError", "bad operand", none, [⟨"<string>", 1⟩]⟩) 8000).ok = false →
      ((run_player_code (ExecOutcome.raises 3 ⟨"TypeError", "bad operand", none, [⟨"<string>", 1⟩]⟩) 8000).error).isSome = true) ∧
    ((run_player_code (ExecOutcome.raises 3 ⟨"TypeError", "bad operand", none, [⟨"<string>", 1⟩]⟩) 8000).ok = true ↔
      ∃ n, ExecOutcome.raises 3 ⟨"TypeError", "bad operand", none, [⟨"<string>", 1⟩]⟩ = ExecOutcome.normal n ∧ n ≤ 8000) :=
  run_player_code_never_raises (ExecOutcome.raises 3 ⟨"TypeError", "bad operand", none, [⟨"<string>", 1⟩]⟩) 8000

/-! ## Step budget (C6) -/

/-- C6: the tracer counts one step per executed line event; any run whose
line events pass the budget is aborted on event `line_limit + 1` with the
step-limit failure and its "possible infinite loop" message, whatever the
script would otherwise have done. -/
theorem run_player_code_step_limit (o : ExecOutcome) (l n : Nat)
    (hev : o.lineEvents = some n) (hn : n > l) :
    run_player_code o l =
      { ok := false,
        error := some "Your rehearsal ran too long (possible infinite loop).",
        lines_executed := l + 1,
        used_hint := false,
        error_line := none } := by
  cases o with
  | parseFails msg lineno => simp [ExecOutcome.lineEvents] at hev
  | normal m =>
      simp only [ExecOutcome.lineEvents, Option.some.injEq] at hev
      subst hev
      simp [run_player_code, hn, stepLimitResult, stepLimitMsg]
  | raises m e =>
      simp only [ExecOutcome.lineEvents, Option.some.injEq] at hev
      subst hev
      simp [run_player_code, hn, stepLimitResult, stepLimitMsg]

/-- Witness for C6: `for i in range(100000): pass` fires one line event per
iteration plus the final check, i.e. 100001 events, far past the default
budget of 8000: the run is aborted as a step-limit failure. -/
theorem run_player_code_step_limit_witness :
    (ExecOutcome.normal 100001).lineEvents = some 100001 ∧ 100001 > 8000 ∧
    run_player_code (ExecOutcome.normal 100001) 8000 =
      { ok := false,
        error := some "Your rehearsal ran too long (possible infinite loop).",
        lines_executed := 8001,
        used_hint := false,
        error_line := none } :=
  ⟨rfl, by omega, run_player_code_step_limit (ExecOutcome.normal 100001) 8000 100001 rfl (by omega)⟩

/-! ## Runtime line attribution (C7) -/

/-- `find?` returns the head of the filtered list. -/
theorem find?_eq_head?_filter {α : Type} (p : α → Bool) :
    ∀ l : List α, l.find? p = (l.filter p).head? := by
  intro l
  induction l with
  | nil => rfl
  | cons a l ih =>
      by_cases h : p a = true
      · rw [List.find?_cons_of_pos l h, List.filter_cons, if_pos h, List.head?_cons]
      · rw [List.find?_cons_of_neg l h, List.filter_cons, if_neg h, ih]

/-- Scanning a list back-to-front for the first match finds the last
matching element of the list. -/
theorem find?_reverse_eq_getLast?_filter {α : Type} (p : α → Bool) (l : List α) :
    l.reverse.find? p = (l.filter p).getLast? := by
  rw [find?_eq_head?_filter, List.filter_reverse, List.getLast?_eq_head?_reverse]

/-- C7: for a runtime fault (anything but a `SyntaxError`), the reported
line is that of the innermost traceback frame originating in the supplied
source (`"<string>"`, frames listed outermost first) — the last such frame
of the chain — and `none` when no frame originates there.  In particular
the two-line script `x = 1\nprint(y)\n` with empty bindings comes back
`ok = false` with the `NameError` message and `error_line = 2`. -/
theorem extract_error_line_spec (e : PyError) (hname : e.name ≠ "SyntaxError") :
    extractErrorLine e =
      ((e.frames.filter (fun f => f.filename == "<string>")).getLast?).map (fun f => f.lineno) ∧
    ((∀ f ∈ e.frames, f.filename ≠ "<string>") → extractErrorLine e = none) ∧
    run_player_code
        (ExecOutcome.raises 2 ⟨"NameError", "name 'y' is not defined", none, [⟨"<string>", 2⟩]⟩) 8000 =
      { ok := false,
        error := some "NameError: name 'y' is not defined. Tip: define the variable before using it.",
        lines_executed := 2,
        used_hint := false,
        error_line := some 2 } := by
  refine ⟨?_, ?_, ?_⟩
  · rw [extractErrorLine, if_neg hname, find?_reverse_eq_getLast?_filter]
  · intro hall
    have hnil : e.frames.filter (fun f => f.filename == "<string>") = [] := by
      refine List.filter_eq_nil_iff.mpr ?_
      intro f hf
      simp only [beq_iff_eq]
      exact hall f hf
    rw [extractErrorLine, if_neg hname, find?_reverse_eq_getLast?_filter, hnil]
    rfl
  · rfl

/-- Witness for C7 at a concrete fault: a `ZeroDivisionError` whose
traceback interleaves sandbox frames (`code_runner.py`) with two frames
from the script: the innermost script frame, line 7, is reported. -/
theorem extract_error_line_spec_witness :
    (PyError.mk "ZeroDivisionError" "division by zero" none
        [⟨"code_runner.py", 81⟩, ⟨"<string>", 3⟩, ⟨"<string>", 7⟩]).name ≠ "SyntaxError" ∧
    extractErrorLine
      (PyError.mk "ZeroDivisionError" "division by zero" none
        [⟨"code_runner.py", 81⟩, ⟨"<string>", 3⟩, ⟨"<string>", 7⟩]) = some 7 := by
  refine ⟨by decide, ?_⟩
  have h := extract_error_line_spec
    (PyError.mk "ZeroDivisionError" "division by zero" none
      [⟨"code_runner.py", 81⟩, ⟨"<string>", 3⟩, ⟨"<string>", 7⟩]) (by decide)
  rw [h.1]
  rfl

/-! ## Error classification (C5) -/

/-- Counterexample to C5 as stated: a script that trips the registry's
`KeyError` (e.g. `get_pos` on an unknown name) comes back with the message
`"KeyError: 'bob'"` — the observable kind of the result is the raw
source-language exception name `KeyError`, which is not a member of the
closed enumeration; `RunResult` carries no `errorKind` field at all. -/
theorem error_kind_leak_counterexample :
    (run_player_code (ExecOutcome.raises 1 ⟨"KeyError", "'bob'", none, [⟨"<string>", 1⟩]⟩) 8000).ok = false ∧
    (run_player_code (ExecOutcome.raises 1 ⟨"KeyError", "'bob'", none, [⟨"<string>", 1⟩]⟩) 8000).error =
      some "KeyError: 'bob'" ∧
    errorKindOf (run_player_code (ExecOutcome.raises 1 ⟨"KeyError", "'bob'", none, [⟨"<string>", 1⟩]⟩) 8000) =
      some "KeyError" ∧
    "KeyError" ∉ closedErrorKinds := by
  refine ⟨rfl, rfl, ?_, by decide⟩
  rfl

/-- C5 amended: the sandbox converts each fault into a human-readable
message but not into a closed error-kind enumeration: `SyntaxError`,
`NameError` and `TypeError` get tailored messages, the step-limit trip gets
its fixed message, and every other fault is reported as
`"{type name}: {message}"`, so source-language exception names outside the
spec's enumeration appear verbatim in the returned result. -/
theorem error_kind_leak_amended (e : PyError) (n l : Nat) (hn : ¬ n > l)
    (h1 : e.name ≠ "SyntaxError") (h2 : e.name ≠ "NameError") (h3 : e.name ≠ "TypeError") :
    (run_player_code (ExecOutcome.raises n e) l).error = some (e.name ++ ": " ++ e.msg) := by
  simp only [run_player_code, if_neg hn]
  rw [friendlyError, if_neg h1, if_neg h2, if_neg h3]

/-- Witness for the amended C5: an `IndexError` at line 4 within budget. -/
theorem error_kind_leak_amended_witness :
    ¬ (4 : Nat) > 8000 ∧
    (run_player_code (ExecOutcome.raises 4 ⟨"IndexError", "list index out of range", none, [⟨"<string>", 4⟩]⟩) 8000).error =
      some "IndexError: list index out of range" :=
  ⟨by omega,
   error_kind_leak_amended ⟨"IndexError", "list index out of range", none, [⟨"<string>", 4⟩]⟩ 4 8000
     (by omega) (by decide) (by decide) (by decide)⟩

/-! ## Registry state after a failed run (C4) -/

/-- Counterexample to C4 as stated: a script that spawns `"X"` and then
faults with a `NameError` still comes back `ok = false`, yet the registry
now contains `"X"` — the failed run did not leave the registry in its
pre-run state. -/
theorem failed_run_mutates_counterexample :
    (run_player_code_fx Band.init [BandOp.spawn "X" "GEN" 1 1]
        (ExecOutcome.raises 2 ⟨"NameError", "name 'y' is not defined", none, [⟨"<string>", 2⟩]⟩) 8000).1.ok = false ∧
    (run_player_code_fx Band.init [BandOp.spawn "X" "GEN" 1 1]
        (ExecOutcome.raises 2 ⟨"NameError", "name 'y' is not defined", none, [⟨"<string>", 2⟩]⟩) 8000).2.get_all =
      ["X"] ∧
    Band.init.get_all = [] := by
  exact ⟨rfl, rfl, rfl⟩

/-- The band's name set only grows under the script-visible API calls. -/
theorem applyOp_keeps_names (op : BandOp) (b : Band) (n : String)
    (h : n ∈ b.get_all) : n ∈ (applyOp b op).get_all := by
  have hins : ∀ (d : List (String × Entity)) (k : String) (v : Entity),
      n ∈ d.map Prod.fst → n ∈ (dictInsert d k v).map Prod.fst := by
    intro d k v hd
    by_cases hc : d.any (fun p => p.1 == k) = true
    · simp only [dictInsert, if_pos hc]
      rcases List.mem_map.mp hd with ⟨q, hq, hqn⟩
      by_cases hqk : (q.1 == k) = true
      · refine List.mem_map.mpr ⟨(k, v), List.mem_map.mpr ⟨q, hq, ?_⟩, ?_⟩
        · simp only [if_pos hqk]
        · rw [← hqn]
          exact (beq_iff_eq.mp hqk).symm
      · refine List.mem_map.mpr ⟨q, List.mem_map.mpr ⟨q, hq, ?_⟩, hqn⟩
        simp only [if_neg hqk]
    · simp only [dictInsert, if_neg hc, List.map_append]
      exact List.mem_append_left _ hd
  have hspawn : ∀ (b : Band) (nm s : String) (x y : Int),
      n ∈ b.get_all → n ∈ (b.spawn nm s x y).get_all := by
    intro b nm s x y hb
    exact hins b.entities nm ⟨nm, s, x, y⟩ hb
  cases op with
  | spawn nm s x y => exact hspawn b nm s x y h
  | set_pos nm x y =>
      simp only [applyOp, Band.set_pos]
      cases hg : dictGet b.entities nm with
      | none => exact hspawn b nm "GEN" x y h
      | some e => exact hins b.entities nm _ h
  | step_to who x y c =>
      simp only [applyOp, Band.step_to]
      induction who generalizing b with
      | nil => exact h
      | cons w ws ih =>
          simp only [List.foldl_cons]
          cases hg : dictGet b.entities w with
          | none =>
              refine ih _ ?_
              exact hspawn b w "GEN" 0 0 h
          | some e => exact ih _ h
  | wait c => exact h

/-- Spawning a name puts it in the registry. -/
theorem spawn_mem (b : Band) (nm s : String) (x y : Int) :
    nm ∈ (b.spawn nm s x y).get_all := by
  simp only [Band.spawn, Band.get_all]
  by_cases hc : b.entities.any (fun p => p.1 == nm) = true
  · rcases List.any_eq_true.mp hc with ⟨q, hq, hqk⟩
    simp only [dictInsert, if_pos hc]
    refine List.mem_map.mpr ⟨(nm, ⟨nm, s, x, y⟩), List.mem_map.mpr ⟨q, hq, ?_⟩, rfl⟩
    simp only [if_pos hqk]
  · simp only [dictInsert, if_neg hc, List.map_append]
    exact List.mem_append_right _ (by simp)

/-- A whole trace of API calls keeps every already-present name. -/
theorem foldl_keeps_names (ops : List BandOp) :
    ∀ (b : Band) (n : String), n ∈ b.get_all → n ∈ (ops.foldl applyOp b).get_all := by
  induction ops with
  | nil => intro b n h; exact h
  | cons op rest ih =>
      intro b n h
      simp only [List.foldl_cons]
      exact ih _ n (applyOp_keeps_names op b n h)

/-- C4 amended: a failed run performs no rollback — the registry the caller
sees afterwards is exactly the initial registry with every API call the
script made before faulting applied; in particular every entity the script
spawned during the failed run is still present (the host is expected to
reset/re-seed the registry before each run). -/
theorem failed_run_mutations_persist (b : Band) (ops : List BandOp)
    (o : ExecOutcome) (l : Nat) (nm s : String) (x y : Int)
    (hop : BandOp.spawn nm s x y ∈ ops)
    (hfail : (run_player_code_fx b ops o l).1.ok = false) :
    (run_player_code_fx b ops o l).2 = ops.foldl applyOp b ∧
    nm ∈ (run_player_code_fx b ops o l).2.get_all := by
  refine ⟨rfl, ?_⟩
  show nm ∈ (ops.foldl applyOp b).get_all
  clear hfail
  induction ops generalizing b with
  | nil => cases hop
  | cons op rest ih =>
      simp only [List.foldl_cons]
      rcases List.mem_cons.mp hop with heq | hmem
      · cases heq
        exact foldl_keeps_names rest _ nm (spawn_mem b nm s x y)
      · exact ih _ hmem

/-- Witness for the amended C4: the failing spawn-then-`NameError` run keeps
`"X"` in the registry. -/
theorem failed_run_mutations_persist_witness :
    BandOp.spawn "X" "GEN" 1 1 ∈ [BandOp.spawn "X" "GEN" 1 1] ∧
    (run_player_code_fx Band.init [BandOp.spawn "X" "GEN" 1 1]
        (ExecOutcome.raises 2 ⟨"NameError", "name 'y' is not defined", none, [⟨"<string>", 2⟩]⟩) 8000).1.ok = false ∧
    ((run_player_code_fx Band.init [BandOp.spawn "X" "GEN" 1 1]
        (ExecOutcome.raises 2 ⟨"NameError", "name 'y' is not defined", none, [⟨"<string>", 2⟩]⟩) 8000).2 =
      [BandOp.spawn "X" "GEN" 1 1].foldl applyOp Band.init ∧
     "X" ∈ (run_player_code_fx Band.init [BandOp.spawn "X" "GEN" 1 1]
        (ExecOutcome.raises 2 ⟨"NameError", "name 'y' is not defined", none, [⟨"<string>", 2⟩]⟩) 8000).2.get_all) :=
  ⟨List.mem_cons_self _ _, rfl,
   failed_run_mutations_persist Band.init [BandOp.spawn "X" "GEN" 1 1]
     (ExecOutcome.raises 2 ⟨"NameError", "name 'y' is not defined", none, [⟨"<string>", 2⟩]⟩) 8000
     "X" "GEN" 1 1 (List.mem_cons_self _ _) rfl⟩

/-! ## Read/write asymmetry on unknown names (C8) -/

/-- An absent name has no binding. -/
theorem dictGet_eq_none_of_not_mem (d : List (String × Entity)) (k : String)
    (h : k ∉ d.map Prod.fst) : dictGet d k = none := by
  induction d with
  | nil => rfl
  | cons p d ih =>
      rw [List.map_cons, List.mem_cons, not_or] at h
      have hk : (p.1 == k) = false := by
        rw [beq_eq_false_iff_ne]
        intro hkk
        exact h.1 hkk.symm
      simp only [dictGet, List.find?_cons, hk, cond_false]
      exact ih h.2

/-- Appending a fresh binding makes it the one lookup finds. -/
theorem dictGet_append_new (d : List (String × Entity)) (k : String)
    (hk : k ∉ d.map Prod.fst) (v : Entity) : dictGet (d ++ [(k, v)]) k = some v := by
  induction d with
  | nil => simp [dictGet]
  | cons p d ih =>
      rw [List.map_cons, List.mem_cons, not_or] at hk
      have hpk : (p.1 == k) = false := by
        rw [beq_eq_false_iff_ne]
        intro hkk
        exact hk.1 hkk.symm
      simp only [List.cons_append, dictGet, List.find?_cons, hpk, cond_false]
      exact ih hk.2

/-- C8: read/write asymmetry on a name absent from the registry:
`get_pos` fails with a lookup error (the `KeyError` of
`self.entities[name]`) and returns nothing — in particular no band — while
`set_pos` auto-spawns the name with section `"GEN"` at the written position
and `step_to` auto-spawns it with section `"GEN"` at the origin `(0, 0)`
before queueing the move, whose captured `start` is therefore `(0, 0)`. -/
theorem unknown_name_read_write_asymmetry (b : Band) (name : String)
    (x y : Int) (c : Int) (h : name ∉ b.get_all) :
    b.get_pos name = none ∧
    dictGet (b.set_pos name x y).entities name = some ⟨name, "GEN", x, y⟩ ∧
    dictGet (b.step_to [name] x y c).entities name = some ⟨name, "GEN", 0, 0⟩ ∧
    (b.step_to [name] x y c).queue =
      b.queue ++ [⟨name, (0, 0), (x, y), (max 1 c).toNat, 0⟩] := by
  have hget : dictGet b.entities name = none :=
    dictGet_eq_none_of_not_mem b.entities name h
  have hnotany : ¬ (b.entities.any (fun p => p.1 == name)) = true := by
    intro hc
    rcases List.any_eq_true.mp hc with ⟨q, hq, hqk⟩
    exact h (List.mem_map.mpr ⟨q, hq, beq_iff_eq.mp hqk⟩)
  have hspawnget : ∀ (s : String) (sx sy : Int),
      dictGet (dictInsert b.entities name ⟨name, s, sx, sy⟩) name =
        some ⟨name, s, sx, sy⟩ := by
    intro s sx sy
    simp only [dictInsert, if_neg hnotany]
    exact dictGet_append_new b.entities name h _
  refine ⟨?_, ?_, ?_, ?_⟩
  · simp [Band.get_pos, hget]
  · simp only [Band.set_pos, hget, Band.spawn]
    exact hspawnget "GEN" x y
  · simp only [Band.step_to, List.foldl_cons, hget, List.foldl_nil, Band.spawn]
    exact hspawnget "GEN" 0 0
  · simp only [Band.step_to, List.foldl_cons, hget, List.foldl_nil, Band.spawn]

/-- Witness for C8: in a registry holding only "A", the unknown name "NEW"
fails on read but is auto-spawned by the writes (`step_to` at the origin). -/
theorem unknown_name_read_write_asymmetry_witness :
    "NEW" ∉ (Band.init.spawn "A" "DM" 1 1).get_all ∧
    ((Band.init.spawn "A" "DM" 1 1).get_pos "NEW" = none ∧
     dictGet ((Band.init.spawn "A" "DM" 1 1).set_pos "NEW" 3 3).entities "NEW" =
       some ⟨"NEW", "GEN", 3, 3⟩ ∧
     dictGet ((Band.init.spawn "A" "DM" 1 1).step_to ["NEW"] 3 3 2).entities "NEW" =
       some ⟨"NEW", "GEN", 0, 0⟩ ∧
     ((Band.init.spawn "A" "DM" 1 1).step_to ["NEW"] 3 3 2).queue =
       (Band.init.spawn "A" "DM" 1 1).queue ++ [⟨"NEW", (0, 0), (3, 3), (max 1 (2 : Int)).toNat, 0⟩]) :=
  ⟨by decide,
   unknown_name_read_write_asymmetry (Band.init.spawn "A" "DM" 1 1) "NEW" 3 3 2 (by decide)⟩

/-! ## Exact landing of a single move (C9) -/

/-- Below the budget, the inner loop appends exactly the `tickSnaps`. -/
theorem tickLoop_no_trunc (act : StepAction) (M : Nat) :
    ∀ (rem t tg : Nat) (pos : Snapshot), tg + rem ≤ M →
      (tickLoop act M rem t tg pos).2.2 = tickSnaps act rem t pos := by
  intro rem
  induction rem with
  | zero => intro t tg pos h; rfl
  | succ rem ih =>
      intro t tg pos h
      have hover : ¬ (tg + 1 > M) := by omega
      simp only [tickLoop, tickSnaps, if_neg hover]
      rw [ih (t + 1) (tg + 1) _ (by omega)]

/-- The C9 scenario: one entity "A" at the origin, one queued move to
`(4, 0)` over 4 counts. -/
theorem single_move_band_eval :
    (Band.init.spawn "A" "DM" 0 0).step_to1 "A" 4 0 4 =
      { entities := [("A", ⟨"A", "DM", 0, 0⟩)],
        queue := [⟨"A", (0, 0), (4, 0), 4, 0⟩], time := 0 } := by
  decide

/-- C9: one entity at `(0, 0)` with a single queued move to `(4, 0)` over
4 counts: with any tick budget of at least 4, the timeline's entries at
indices 0..4 put the entity at exactly `(0,0), (1,0), (2,0), (3,0), (4,0)` —
the rounded linear interpolation lands on the integer target at the move's
final tick. -/
theorem single_move_exact_landing (M : Nat) (hM : 4 ≤ M) :
    (((Band.init.spawn "A" "DM" 0 0).step_to1 "A" 4 0 4).make_timeline M).1.take 5 =
      [[("A", ((0 : Int), (0 : Int)))], [("A", (1, 0))], [("A", (2, 0))],
       [("A", (3, 0))], [("A", (4, 0))]] := by
  rw [single_move_band_eval]
  have hi0 : interpPos ⟨"A", (0, 0), (4, 0), 4, 0⟩ 0 = (1, 0) := by
    norm_num [interpPos, pyRound]
  have hi1 : interpPos ⟨"A", (0, 0), (4, 0), 4, 0⟩ 1 = (2, 0) := by
    norm_num [interpPos, pyRound]
  have hi2 : interpPos ⟨"A", (0, 0), (4, 0), 4, 0⟩ 2 = (3, 0) := by
    norm_num [interpPos, pyRound]
  have hi3 : interpPos ⟨"A", (0, 0), (4, 0), 4, 0⟩ 3 = (4, 0) := by
    norm_num [interpPos, pyRound]
  have hsnaps : tickSnaps ⟨"A", (0, 0), (4, 0), 4, 0⟩ 4 0 [("A", ((0 : Int), (0 : Int)))] =
      [[("A", ((1 : Int), (0 : Int)))], [("A", (2, 0))], [("A", (3, 0))], [("A", (4, 0))]] := by
    simp [tickSnaps, hi0, hi1, hi2, hi3, snapInsert, -Prod.mk_zero_zero,
      (by decide : ¬ (("A" : String) = "__WAIT__"))]
  have hcnt := tickLoop_count ⟨"A", (0, 0), (4, 0), 4, 0⟩ M 4 0 0
    [("A", ((0 : Int), (0 : Int)))] (Nat.zero_le M)
  have h1 : (tickLoop ⟨"A", (0, 0), (4, 0), 4, 0⟩ M 4 0 0 [("A", ((0 : Int), (0 : Int)))]).1 = 4 := by
    rw [hcnt.1]; omega
  have hstop : ¬ (tickLoop ⟨"A", (0, 0), (4, 0), 4, 0⟩ M 4 0 0 [("A", ((0 : Int), (0 : Int)))]).1 > M := by
    rw [h1]; omega
  have hsn := tickLoop_no_trunc ⟨"A", (0, 0), (4, 0), 4, 0⟩ M 4 0 0
    [("A", ((0 : Int), (0 : Int)))] (by omega)
  have hinit : (Band.mk [("A", ⟨"A", "DM", 0, 0⟩)] [⟨"A", (0, 0), (4, 0), 4, 0⟩] 0).snapshot =
      [("A", ((0 : Int), (0 : Int)))] := by decide
  simp only [Band.make_timeline, hinit, timelineLoop, if_neg hstop, hsn, hsnaps,
    List.append_nil, List.take]

/-- Witness for C9 at the smallest sufficient budget, `M = 4`. -/
theorem single_move_exact_landing_witness :
    4 ≤ 4 ∧
    (((Band.init.spawn "A" "DM" 0 0).step_to1 "A" 4 0 4).make_timeline 4).1.take 5 =
      [[("A", ((0 : Int), (0 : Int)))], [("A", (1, 0))], [("A", (2, 0))],
       [("A", (3, 0))], [("A", (4, 0))]] :=
  ⟨le_refl 4, single_move_exact_landing 4 (le_refl 4)⟩

/-! ## C10 helpers: generic ordered-dictionary lookup/store lemmas -/

/-- Updating the binding of `k` in place leaves every other key's lookup
unchanged. -/
theorem alist_find_map_ne {α : Type} (k : String) (v : α) (n : String) (hnk : n ≠ k) :
    ∀ d : List (String × α),
      (d.map (fun p => if p.1 == k then (k, v) else p)).find? (fun p => p.1 == n) =
        d.find? (fun p => p.1 == n) := by
  intro d
  induction d with
  | nil => rfl
  | cons p d ih =>
      by_cases hpk : (p.1 == k) = true
      · have h1 : (k == n) = false := by
          rw [beq_eq_false_iff_ne]; exact fun h => hnk h.symm
        have h2 : (p.1 == n) = false := by
          rw [beq_eq_false_iff_ne]
          rw [beq_iff_eq] at hpk
          rw [hpk]
          exact fun h => hnk h.symm
        simp only [List.map_cons, if_pos hpk, List.find?_cons, h1, h2, cond_false]
        exact ih
      · rw [Bool.not_eq_true] at hpk
        simp only [List.map_cons, hpk, Bool.false_eq_true, if_false, List.find?_cons]
        cases hpn : (p.1 == n) with
        | true => rfl
        | false => exact ih

/-- When `k` is bound, the in-place update makes its lookup read the new
value. -/
theorem alist_find_map_eq {α : Type} (k : String) (v : α) :
    ∀ d : List (String × α), d.any (fun p => p.1 == k) = true →
      (d.map (fun p => if p.1 == k then (k, v) else p)).find? (fun p => p.1 == k) =
        some (k, v) := by
  intro d
  induction d with
  | nil => intro h; simp at h
  | cons p d ih =>
      intro h
      by_cases hpk : (p.1 == k) = true
      · simp only [List.map_cons, if_pos hpk, List.find?_cons, beq_self_eq_true, cond_true]
      · rw [List.any_cons] at h
        rw [Bool.not_eq_true] at hpk
        rw [hpk] at h
        simp only [Bool.false_or] at h
        simp only [List.map_cons, hpk, Bool.false_eq_true, if_false, List.find?_cons]
        exact ih h

/-- Lookup of a key other than the appended one skips the appended
binding. -/
theorem alist_find_append_ne {α : Type} (k : String) (v : α) (n : String) (hnk : n ≠ k) :
    ∀ d : List (String × α),
      (d ++ [(k, v)]).find? (fun p => p.1 == n) = d.find? (fun p => p.1 == n) := by
  intro d
  induction d with
  | nil =>
      have h1 : (k == n) = false := by
        rw [beq_eq_false_iff_ne]; exact fun h => hnk h.symm
      simp [List.find?_cons, h1]
  | cons p d ih =>
      simp only [List.cons_append, List.find?_cons]
      cases hpn : (p.1 == n) with
      | true => rfl
      | false => exact ih

/-- When `k` is unbound, lookup after the append reads the appended
binding. -/
theorem alist_find_append_eq {α : Type} (k : String) (v : α) :
    ∀ d : List (String × α), d.any (fun p => p.1 == k) = false →
      (d ++ [(k, v)]).find? (fun p => p.1 == k) = some (k, v) := by
  intro d
  induction d with
  | nil => intro _; simp [List.find?_cons]
  | cons p d ih =>
      intro h
      rw [List.any_cons] at h
      have hpk : (p.1 == k) = false := by
        cases hpk : (p.1 == k) with
        | false => rfl
        | true => rw [hpk] at h; simp at h
      rw [hpk] at h
      simp only [Bool.false_or] at h
      simp only [List.cons_append, List.find?_cons, hpk, cond_false]
      exact ih h

/-- Lookup after a registry store: the stored key reads back the stored
value, every other key is untouched. -/
theorem dictGet_dictInsert (d : List (String × Entity)) (k : String)
    (v : Entity) (n : String) :
    dictGet (dictInsert d k v) n = if n = k then some v else dictGet d n := by
  by_cases hnk : n = k
  · subst hnk
    simp only [if_pos rfl, dictGet, dictInsert]
    by_cases hc : (d.any (fun p => p.1 == n)) = true
    · rw [if_pos hc, alist_find_map_eq n v d hc]
      rfl
    · rw [Bool.not_eq_true] at hc
      rw [if_neg (by simp [hc]), alist_find_append_eq n v d hc]
      rfl
  · simp only [if_neg hnk, dictGet, dictInsert]
    by_cases hc : (d.any (fun p => p.1 == k)) = true
    · rw [if_pos hc, alist_find_map_ne k v n hnk d]
    · rw [Bool.not_eq_true] at hc
      rw [if_neg (by simp [hc]), alist_find_append_ne k v n hnk d]

/-- Lookup after a snapshot store, same semantics. -/
theorem snapGet_snapInsert (s : Snapshot) (k : String) (v : Int × Int) (n : String) :
    snapGet (snapInsert s k v) n = if n = k then some v else snapGet s n := by
  by_cases hnk : n = k
  · subst hnk
    simp only [if_pos rfl, snapGet, snapInsert]
    by_cases hc : (List.any s (fun p => p.1 == n)) = true
    · rw [if_pos hc, alist_find_map_eq n v s hc]
      rfl
    · rw [Bool.not_eq_true] at hc
      rw [if_neg (by simp [hc]), alist_find_append_eq n v s hc]
      rfl
  · simp only [if_neg hnk, snapGet, snapInsert]
    by_cases hc : (List.any s (fun p => p.1 == k)) = true
    · rw [if_pos hc, alist_find_map_ne k v n hnk s]
    · rw [Bool.not_eq_true] at hc
      rw [if_neg (by simp [hc]), alist_find_append_ne k v n hnk s]

/-- One action's ticks: the pure tick loop of `make_timeline` and the
in-place tick loop of `simulate` agree — same observable positions, the
in-place `time` tracks the pure `t_global`, the early-return flag fires
exactly when the budget is exceeded, and the entity key set is unchanged —
provided a moving action's entity is present in the registry. -/
theorem simTicks_agree (act : StepAction) (M : Nat) :
    ∀ (rem t tg : Nat) (pos : Snapshot) (bb : Band),
      (∀ n, snapGet pos n = bandPos bb n) →
      (act.entity ≠ "__WAIT__" → (dictGet bb.entities act.entity).isSome = true) →
      bb.time = tg → tg ≤ M →
      (∀ n, snapGet (tickLoop act M rem t tg pos).2.1 n =
         bandPos (simTicks act M rem t bb).1 n) ∧
      (simTicks act M rem t bb).1.time = (tickLoop act M rem t tg pos).1 ∧
      ((simTicks act M rem t bb).2 = true ↔ (tickLoop act M rem t tg pos).1 > M) ∧
      (∀ k, (dictGet (simTicks act M rem t bb).1.entities k).isSome =
         (dictGet bb.entities k).isSome) := by
  intro rem
  induction rem with
  | zero =>
      intro t tg pos bb hpos hact htime htg
      refine ⟨hpos, htime, ?_, fun k => rfl⟩
      simp only [simTicks, tickLoop, Bool.false_eq_true, false_iff]
      omega
  | succ rem ih =>
      intro t tg pos bb hpos hact htime htg
      subst htime
      by_cases hov : bb.time + 1 > M
      · simp only [tickLoop, simTicks, if_pos hov]
        refine ⟨hpos, by trivial, by simpa using hov, fun k => by trivial⟩
      · by_cases hwait : act.entity = "__WAIT__"
        · have hcond : (act.entity ≠ "__WAIT__") = False := by simp [hwait]
          have hrec := ih (t + 1) (bb.time + 1) pos { bb with time := bb.time + 1 }
            hpos hact rfl (by omega)
          simp only [tickLoop, simTicks, if_neg hov, if_pos hwait, hcond, if_false]
          exact hrec
        · have hcondT : (act.entity ≠ "__WAIT__") = True := by simp [hwait]
          rcases Option.isSome_iff_exists.mp (hact hwait) with ⟨e, he⟩
          set p := interpPos act t with hp
          set v : Entity := { e with x := p.1, y := p.2 } with hv
          set bb2 : Band :=
            { bb with time := bb.time + 1,
                      entities := dictInsert bb.entities act.entity v } with hbb2
          have hpos2 : ∀ n, snapGet (snapInsert pos act.entity p) n = bandPos bb2 n := by
            intro n
            rw [snapGet_snapInsert]
            simp only [bandPos, hbb2, dictGet_dictInsert]
            by_cases hn : n = act.entity
            · simp [hn, hv]
            · simp only [if_neg hn]
              exact hpos n
          have hact2 : act.entity ≠ "__WAIT__" →
              (dictGet bb2.entities act.entity).isSome = true := by
            intro _
            simp only [hbb2, dictGet_dictInsert]
            simp
          have hrec := ih (t + 1) (bb.time + 1) (snapInsert pos act.entity p) bb2
            hpos2 hact2 rfl (by omega)
          have hget_sim : dictGet { bb with time := bb.time + 1 }.entities act.entity = some e := he
          simp only [tickLoop, simTicks, if_neg hov, if_neg hwait, hcondT, if_true, hget_sim]
          refine ⟨hrec.1, hrec.2.1, hrec.2.2.1, ?_⟩
          intro k
          rw [hrec.2.2.2 k]
          simp only [hbb2, dictGet_dictInsert]
          by_cases hk : k = act.entity
          · subst hk
            rw [if_pos rfl, he]
            rfl
          · rw [if_neg hk]

/-- Across the whole queue, the final working position map of
`make_timeline` agrees observationally with the registry `simulate`
leaves behind. -/
theorem simLoop_agree (M : Nat) :
    ∀ (q : List StepAction) (tg : Nat) (pos : Snapshot) (bb : Band),
      (∀ n, snapGet pos n = bandPos bb n) →
      (∀ a ∈ q, a.entity ≠ "__WAIT__" → (dictGet bb.entities a.entity).isSome = true) →
      bb.time = tg → tg ≤ M →
      ∀ n, snapGet (timelineLoop M q tg pos).2.2 n = bandPos (simLoop M q bb) n := by
  intro q
  induction q with
  | nil => intro tg pos bb hpos hq htime htg n; exact hpos n
  | cons act rest ih =>
      intro tg pos bb hpos hq htime htg n
      have hT := simTicks_agree act M act.counts 0 tg pos bb hpos
        (hq act (List.mem_cons_self act rest)) htime htg
      by_cases hstop : (tickLoop act M act.counts 0 tg pos).1 > M
      · have hflag : (simTicks act M act.counts 0 bb).2 = true := hT.2.2.1.mpr hstop
        simp only [timelineLoop, simLoop, if_pos hstop, if_pos hflag]
        exact hT.1 n
      · have hflag : (simTicks act M act.counts 0 bb).2 = false := by
          cases hfl : (simTicks act M act.counts 0 bb).2 with
          | false => rfl
          | true => exact absurd (hT.2.2.1.mp hfl) hstop
        have hq2 : ∀ a ∈ rest, a.entity ≠ "__WAIT__" →
            (dictGet (simTicks act M act.counts 0 bb).1.entities a.entity).isSome = true := by
          intro a ha hna
          rw [hT.2.2.2 a.entity]
          exact hq a (List.mem_cons_of_mem act ha) hna
        have hrec := ih (tickLoop act M act.counts 0 tg pos).1
          (tickLoop act M act.counts 0 tg pos).2.1
          (simTicks act M act.counts 0 bb).1 hT.1 hq2 hT.2.1 (by omega)
        have hneg : ¬ ((simTicks act M act.counts 0 bb).2 = true) := by
          rw [hflag]; exact Bool.false_ne_true
        simp only [timelineLoop, simLoop, if_neg hstop, if_neg hneg]
        exact hrec n

/-- The inner loop's appended snapshots end with its final position map
(or nothing was appended and the map is unchanged). -/
theorem tickLoop_last (act : StepAction) (M : Nat) :
    ∀ (rem t tg : Nat) (pos : Snapshot),
      ((tickLoop act M rem t tg pos).2.2 = [] ∧ (tickLoop act M rem t tg pos).2.1 = pos) ∨
      (tickLoop act M rem t tg pos).2.2.getLast? = some (tickLoop act M rem t tg pos).2.1 := by
  intro rem
  induction rem with
  | zero => intro t tg pos; exact Or.inl ⟨rfl, rfl⟩
  | succ rem ih =>
      intro t tg pos
      by_cases hov : tg + 1 > M
      · simp only [tickLoop, if_pos hov]
        exact Or.inl ⟨by trivial, by trivial⟩
      · simp only [tickLoop, if_neg hov]
        rcases ih (t + 1) (tg + 1)
            (if act.entity ≠ "__WAIT__" then snapInsert pos act.entity (interpPos act t) else pos) with
          ⟨h1, h2⟩ | h
        · refine Or.inr ?_
          rw [h1, h2]
          rfl
        · refine Or.inr ?_
          cases hs : (tickLoop act M rem (t + 1) (tg + 1)
              (if act.entity ≠ "__WAIT__" then snapInsert pos act.entity (interpPos act t) else pos)).2.2 with
          | nil => rw [hs] at h; simp at h
          | cons a l =>
              rw [hs] at h
              rw [List.getLast?_cons_cons, h]

/-- The action loop's appended snapshots end with its final position map
(or nothing was appended and the map is unchanged). -/
theorem timelineLoop_last (M : Nat) :
    ∀ (q : List StepAction) (tg : Nat) (pos : Snapshot),
      ((timelineLoop M q tg pos).1 = [] ∧ (timelineLoop M q tg pos).2.2 = pos) ∨
      (timelineLoop M q tg pos).1.getLast? = some (timelineLoop M q tg pos).2.2 := by
  intro q
  induction q with
  | nil => intro tg pos; exact Or.inl ⟨rfl, rfl⟩
  | cons act rest ih =>
      intro tg pos
      by_cases hstop : (tickLoop act M act.counts 0 tg pos).1 > M
      · simp only [timelineLoop, if_pos hstop]
        exact tickLoop_last act M act.counts 0 tg pos
      · simp only [timelineLoop, if_neg hstop]
        rcases ih (tickLoop act M act.counts 0 tg pos).1 (tickLoop act M act.counts 0 tg pos).2.1 with
          ⟨h1, h2⟩ | h
        · rw [h1, h2, List.append_nil]
          exact tickLoop_last act M act.counts 0 tg pos
        · refine Or.inr ?_
          rw [List.getLast?_append, h]
          rfl

/-- The last timeline entry is the loop's final position map. -/
theorem make_timeline_last (b : Band) (M : Nat) :
    ((b.make_timeline M).1).getLastD [] = (timelineLoop M b.queue 0 b.snapshot).2.2 := by
  simp only [Band.make_timeline]
  rcases timelineLoop_last M b.queue 0 b.snapshot with ⟨h1, h2⟩ | h
  · rw [h1, h2]
    rfl
  · rw [List.getLastD_eq_getLast?]
    cases hs : (timelineLoop M b.queue 0 b.snapshot).1 with
    | nil => rw [hs] at h; simp at h
    | cons a l =>
        rw [hs] at h
        rw [List.getLast?_cons_cons, h]
        rfl

/-- Reading the snapshot is reading the registry. -/
theorem snapGet_snapshot (b : Band) (n : String) :
    snapGet b.snapshot n = bandPos b n := by
  show snapGet (b.entities.map (fun p => (p.1, (p.2.x, p.2.y)))) n = bandPos b n
  simp only [bandPos, dictGet, snapGet]
  induction b.entities with
  | nil => rfl
  | cons p d ih =>
      simp only [List.map_cons, List.find?_cons]
      cases hpn : (p.1 == n) with
      | true => rfl
      | false => exact ih

/-- A name among the keys has a binding. -/
theorem dictGet_isSome_of_mem (d : List (String × Entity)) (k : String)
    (h : k ∈ d.map Prod.fst) : (dictGet d k).isSome = true := by
  induction d with
  | nil => cases h
  | cons p d ih =>
      rw [List.map_cons] at h
      cases hpk : (p.1 == k) with
      | true => simp [dictGet, List.find?_cons, hpk]
      | false =>
          simp only [dictGet, List.find?_cons, hpk, cond_false]
          refine ih ?_
          rcases List.mem_cons.mp h with heq | hmem
          · rw [beq_eq_false_iff_ne] at hpk
            exact absurd heq.symm hpk
          · exact hmem

/-- C10: when every queued non-WAIT action names an entity present in the
registry, `simulate` leaves every entity at exactly the coordinates the
final snapshot of `make_timeline` (from the same initial state, same tick
budget) records for it — the in-place mutator and the pure timeline builder
agree on the final resting positions. -/
theorem simulate_matches_make_timeline (b : Band) (M : Nat)
    (hq : ∀ a ∈ b.queue, a.entity ≠ "__WAIT__" → a.entity ∈ b.get_all) :
    ∀ n, snapGet (((b.make_timeline M).1).getLastD []) n = bandPos (b.simulate M) n := by
  intro n
  rw [make_timeline_last]
  simp only [Band.simulate]
  refine simLoop_agree M b.queue 0 b.snapshot { b with time := 0 } ?_ ?_ rfl (Nat.zero_le M) n
  · intro m
    exact snapGet_snapshot b m
  · intro a ha hna
    exact dictGet_isSome_of_mem b.entities a.entity (hq a ha hna)

/-- Witness for C10: one entity "A", a queued move and a queued wait; the
final resting position agrees between the two consumption modes. -/
theorem simulate_matches_make_timeline_witness :
    (∀ a ∈ (((Band.init.spawn "A" "DM" 0 0).step_to1 "A" 3 1 2).wait 2).queue,
       a.entity ≠ "__WAIT__" →
       a.entity ∈ (((Band.init.spawn "A" "DM" 0 0).step_to1 "A" 3 1 2).wait 2).get_all) ∧
    snapGet ((((((Band.init.spawn "A" "DM" 0 0).step_to1 "A" 3 1 2).wait 2).make_timeline 128).1).getLastD []) "A" =
      bandPos ((((Band.init.spawn "A" "DM" 0 0).step_to1 "A" 3 1 2).wait 2).simulate 128) "A" :=
  ⟨by decide,
   simulate_matches_make_timeline (((Band.init.spawn "A" "DM" 0 0).step_to1 "A" 3 1 2).wait 2) 128
     (by decide) "A"⟩


end Cop
